import Mathlib

/-!
Shallow embedding of `src/app.py` (URL shortening service).

Modelling conventions:
* Time instants are `Int` values counted in seconds; `timedelta(days = d)`
  becomes `d * 86400` seconds added to a timestamp.
* The SQL `KeyPool` table is a `List KeyPool` of rows (the autoincrement
  `id` column is never consulted by the program's logic and is omitted).
* The Mongo collection `url_mapping` is a `List UrlDoc`; Mongo's `_id`
  is the `id : Nat` field, used by `delete_one({"_id": ...})`.
* Python's `random.choices` is modelled by an explicit choice oracle
  `pick : Nat → Nat` giving, for each character position, the index
  drawn from the allowed alphabet.
* The `functools.lru_cache(maxsize = 1000)` on `get_url_mapping` is a
  most-recently-used-first association list, capped at 1000 entries,
  that also caches `none` results (as the Python cache caches `None`).
* A database commit that may fail is modelled by an explicit Boolean
  oracle saying whether that commit succeeds; an exception crossing a
  function boundary is an `Except.error`.
-/

set_option autoImplicit false

namespace UrlShortener

/-- One row of the SQL `KeyPool` table (`class KeyPool(db.Model)`):
a short code slot with its `used` flag and informational creation time. -/
structure KeyPool where
  short_code : String
  used : Bool
  created_at : Int
  deriving DecidableEq, Repr

/-- One document of the Mongo `url_mapping` collection: `_id`,
`short_code`, `long_url`, `expires_at` (nullable timestamp). -/
structure UrlDoc where
  id : Nat
  short_code : String
  long_url : String
  expires_at : Option Int
  deriving DecidableEq, Repr

/-- A cached value of `get_url_mapping`: either `none` (the code had no
document when probed — Python caches the `None` result too) or the
`(long_url, expires_at)` pair. -/
abbrev CacheVal := Option (String × Option Int)

/-- The `lru_cache` state: entries most-recently-used first. -/
abbrev Cache := List (String × CacheVal)

/-- `string.ascii_letters + string.digits`, the alphabet
`generate_short_code` draws from. -/
def allowed_chars : List Char :=
  "abcdefghijklmnopqrstuvwxyzABCDEFGHIJKLMNOPQRSTUVWXYZ0123456789".toList

/-- `generate_short_code(length)`: draw `length` characters from
`allowed_chars`; the random draws are the oracle `pick`, reduced modulo
the alphabet size so any oracle denotes a valid draw. -/
def generate_short_code (pick : Nat → Nat) (length : Nat) : String :=
  String.mk ((List.range length).map (fun i =>
    allowed_chars.get ⟨pick i % 62, Nat.mod_lt _ (by decide)⟩))

/-- `KeyPool.query.filter_by(used=False).first()`: the first free slot. -/
def firstFreeSlot (pool : List KeyPool) : Option KeyPool :=
  pool.find? (fun k => !k.used)

/-- Setting `key_entry.used = True` on the row returned by
`filter_by(used=False).first()`: flip the first free slot to used. -/
def markFirstFreeUsed : List KeyPool → List KeyPool
  | [] => []
  | k :: rest =>
      if !k.used then { k with used := true } :: rest
      else k :: markFirstFreeUsed rest

/-- `allocate_key()` on the conflict-free path (the `try:` body, with the
commit succeeding): claim the first free slot, or, when none exists,
generate a fresh 8-character code and insert it; either way the chosen
slot ends up `used = True` and its code is returned. -/
def allocate_key (pool : List KeyPool) (pick : Nat → Nat) (now : Int) :
    String × List KeyPool :=
  match firstFreeSlot pool with
  | some k => (k.short_code, markFirstFreeUsed pool)
  | none =>
      let new_code := generate_short_code pick 8
      (new_code, pool ++ [{ short_code := new_code, used := true, created_at := now }])

/-- The `except IntegrityError: db.session.rollback(); return allocate_key()`
retry loop. `conflict n` says whether attempt number `n` hits an
`IntegrityError` on commit (a rollback restores the pool unchanged);
`pick a` is the randomness of attempt `a`. `fuel` bounds how many
attempts we are willing to unfold: `none` means that after `fuel`
attempts the function is **still retrying** — the source has no branch
that stops retrying or reports an error. -/
def allocate_key_run (conflict : Nat → Bool) (pool : List KeyPool)
    (pick : Nat → Nat → Nat) (now : Int) :
    Nat → Nat → Option (String × List KeyPool)
  | 0, _ => none
  | fuel + 1, attempt =>
      if conflict attempt then
        allocate_key_run conflict pool pick now fuel (attempt + 1)
      else
        some (allocate_key pool (pick attempt) now)

/-- A commit that succeeds iff the oracle `ok` says so. -/
def commit (ok : Bool) (pool : List KeyPool) : Except Unit (List KeyPool) :=
  if ok then Except.ok pool else Except.error ()

/-- Setting `key_entry.used = False` on the row found by
`filter_by(short_code=...).first()`: flip the first slot with that code. -/
def setUsedFalseFirst (code : String) : List KeyPool → List KeyPool
  | [] => []
  | k :: rest =>
      if k.short_code = code then { k with used := false } :: rest
      else k :: setUsedFalseFirst code rest

/-- `recycle_key(short_code)`: look the slot up; if absent do nothing;
otherwise set `used = False` and commit, and on a failed commit roll
back (`except: db.session.rollback()`), silently absorbing the failure.
The `Except` result records whether an exception escapes to the caller. -/
def recycle_key (pool : List KeyPool) (code : String) (commitOk : Bool) :
    Except Unit (List KeyPool) :=
  match pool.find? (fun k => k.short_code = code) with
  | none => Except.ok pool
  | some _ =>
      match commit commitOk (setUsedFalseFirst code pool) with
      | Except.ok p => Except.ok p
      | Except.error _ => Except.ok pool

/-- `recycle_key` as a pool transformer (it never raises, so the
`error` branch is unreachable; we default it to the unchanged pool). -/
def recycle_key_pool (pool : List KeyPool) (code : String) (commitOk : Bool) :
    List KeyPool :=
  match recycle_key pool code commitOk with
  | Except.ok p => p
  | Except.error _ => pool

/-- `url_mapping.find_one({"short_code": code})`: first matching document. -/
def url_mapping_find_one (store : List UrlDoc) (code : String) : Option UrlDoc :=
  store.find? (fun d => d.short_code = code)

/-- The value `get_url_mapping` computes from the store on a cache miss:
`(doc["long_url"], doc["expires_at"])` if a document exists, else `None`. -/
def mapping_store_lookup (store : List UrlDoc) (code : String) : CacheVal :=
  (url_mapping_find_one store code).map (fun d => (d.long_url, d.expires_at))

/-- `@lru_cache(maxsize=1000) get_url_mapping(short_code)`: on a hit the
entry moves to the front (most recently used); on a miss the store is
consulted, the result (including `none`) is cached, and the cache is
capped at 1000 entries. Returns the value and the updated cache. -/
def get_url_mapping (cache : Cache) (store : List UrlDoc) (code : String) :
    CacheVal × Cache :=
  match cache.find? (fun e => e.1 = code) with
  | some e => (e.2, (code, e.2) :: cache.filter (fun e' => !(e'.1 = code)))
  | none =>
      let v := mapping_store_lookup store code
      (v, ((code, v) :: cache).take 1000)

/-- `invalidate_cache()`: `get_url_mapping.cache_clear()`. -/
def invalidate_cache : Cache := []

/-- Is a document expired at `now`? Mongo's `{"expires_at": {"$lt": now}}`
matches only documents whose `expires_at` is an actual timestamp `< now`
(a null / absent field never matches `$lt`). -/
def isExpired (now : Int) (d : UrlDoc) : Bool :=
  match d.expires_at with
  | some t => decide (t < now)
  | none => false

/-- `url_mapping.delete_one({"_id": i})`: remove the first document with
that `_id`. -/
def deleteOneById : List UrlDoc → Nat → List UrlDoc
  | [], _ => []
  | d :: rest, i => if d.id = i then rest else d :: deleteOneById rest i

/-- One iteration of the sweep loop body for document `doc`:
`url_mapping.delete_one({"_id": doc["_id"]})` **then**
`recycle_key(doc["short_code"])` (delete strictly before recycle).
`commitOk` is the oracle for the recycle commit of each code. -/
def sweepStep (commitOk : String → Bool)
    (s : List UrlDoc × List KeyPool) (doc : UrlDoc) :
    List UrlDoc × List KeyPool :=
  let store' := deleteOneById s.1 doc.id
  (store', recycle_key_pool s.2 doc.short_code (commitOk doc.short_code))

/-- `cleanup_expired_urls()`: collect every document with
`expires_at < now`, delete each and recycle its code in order, and
invalidate the whole cache once iff at least one document was expired. -/
def cleanup_expired_urls (now : Int) (store : List UrlDoc)
    (pool : List KeyPool) (cache : Cache) (commitOk : String → Bool) :
    List UrlDoc × List KeyPool × Cache :=
  let expired_docs := store.filter (isExpired now)
  let sp := expired_docs.foldl (sweepStep commitOk) (store, pool)
  let cache' := if expired_docs.isEmpty then cache else invalidate_cache
  (sp.1, sp.2, cache')

/-- Outcome of `GET /<short_code>` (`redirect_short_url`). -/
inductive RedirectResponse where
  | notFound
  | expired
  | redirect (long_url : String)
  deriving DecidableEq, Repr

/-- `redirect_short_url(short_code)`: consult the cached lookup; `404`
when it yields `None`; `410` when the mapping has a (non-null) expiry
strictly in the past (`datetime.now() > expires_at`); otherwise a `302`
redirect to the stored long URL. Only the cache state can change (the
lookup may populate it); the stores are read-only here. -/
def redirect_short_url (code : String) (cache : Cache) (store : List UrlDoc)
    (now : Int) : RedirectResponse × Cache :=
  match get_url_mapping cache store code with
  | (none, cache') => (RedirectResponse.notFound, cache')
  | (some (long_url, expires_at), cache') =>
      match expires_at with
      | some t =>
          if now > t then (RedirectResponse.expired, cache')
          else (RedirectResponse.redirect long_url, cache')
      | none => (RedirectResponse.redirect long_url, cache')

/-- `BASE_URL` from the source. -/
def BASE_URL : String := "http://localhost:5000/"

/-- The JSON body of `POST /shorten`, with its two recognised fields. -/
structure ShortenRequest where
  long_url : Option String
  expires_in_days : Option Int
  deriving DecidableEq, Repr

/-- Outcome of `POST /shorten` (`shorten_url`). -/
inductive ShortenResponse where
  | badRequest
  | created (short_url : String) (long_url : String) (expires_at : Int)
  deriving DecidableEq, Repr

/-- The whole mutable state the request operations touch. -/
structure AppState where
  pool : List KeyPool
  store : List UrlDoc
  cache : Cache
  nextId : Nat
  deriving DecidableEq, Repr

/-- `shorten_url()`: `if not long_url: 400` (Python falsiness — a missing
field or the empty string); otherwise compute
`expires_at = now + timedelta(days = expires_in_days or default 365)`,
allocate a code, insert the mapping document, invalidate the cache, and
answer `201` with `BASE_URL + code`, the long URL and the expiry. -/
def shorten_url (req : ShortenRequest) (st : AppState) (pick : Nat → Nat)
    (now : Int) : ShortenResponse × AppState :=
  match req.long_url with
  | none => (ShortenResponse.badRequest, st)
  | some u =>
      if u = "" then (ShortenResponse.badRequest, st)
      else
        let days := req.expires_in_days.getD 365
        let expires_at := now + days * 86400
        let alloc := allocate_key st.pool pick now
        let short_code := alloc.1
        let doc : UrlDoc :=
          { id := st.nextId, short_code := short_code,
            long_url := u, expires_at := some expires_at }
        let store' := st.store ++ [doc]
        let cache' := invalidate_cache
        (ShortenResponse.created (BASE_URL ++ short_code) u expires_at,
         { pool := alloc.2, store := store', cache := cache', nextId := st.nextId + 1 })

/-! ### Helper lemmas -/

lemma allocate_key_run_from (conflict : Nat → Bool) (pool : List KeyPool)
    (pick : Nat → Nat → Nat) (now : Int) :
    ∀ (n a : Nat), (∀ k, k < n → conflict (a + k) = true) →
      conflict (a + n) = false →
      allocate_key_run conflict pool pick now (n + 1) a =
        some (allocate_key pool (pick (a + n)) now) := by
  intro n
  induction n with
  | zero =>
      intro a _ hn
      simp only [Nat.add_zero] at hn
      simp [allocate_key_run, hn]
  | succ m ih =>
      intro a hk hn
      have hca : conflict a = true := by
        have := hk 0 (by omega)
        simpa using this
      have h1 : ∀ k, k < m → conflict (a + 1 + k) = true := by
        intro k hkm
        have heq : a + 1 + k = a + (k + 1) := by omega
        rw [heq]
        exact hk (k + 1) (by omega)
      have h2 : conflict (a + 1 + m) = false := by
        have heq : a + 1 + m = a + (m + 1) := by omega
        rw [heq]; exact hn
      have hrun := ih (a + 1) h1 h2
      have heq : a + 1 + m = a + (m + 1) := by omega
      rw [heq] at hrun
      simpa [allocate_key_run, hca] using hrun

lemma generate_short_code_length (pick : Nat → Nat) (n : Nat) :
    (generate_short_code pick n).length = n := by
  show ((List.range n).map _).length = n
  simp

lemma generate_short_code_chars (pick : Nat → Nat) (n : Nat) :
    ∀ c ∈ (generate_short_code pick n).toList, c ∈ allowed_chars := by
  intro c hc
  have hL : (generate_short_code pick n).toList =
      (List.range n).map (fun i =>
        allowed_chars.get ⟨pick i % 62, Nat.mod_lt _ (by decide)⟩) := rfl
  rw [hL] at hc
  rcases List.mem_map.mp hc with ⟨i, _, rfl⟩
  exact List.get_mem _ _ _

lemma markFirstFreeUsed_mem (pool : List KeyPool) (k : KeyPool)
    (h : pool.find? (fun s => !s.used) = some k) :
    { k with used := true } ∈ markFirstFreeUsed pool := by
  induction pool with
  | nil => simp [List.find?] at h
  | cons a rest ih =>
      by_cases ha : a.used
      · have hfind : rest.find? (fun s => !s.used) = some k := by
          simpa [List.find?_cons, ha] using h
        simp [markFirstFreeUsed, ha]
        exact Or.inr (ih hfind)
      · have hak : a = k := by
          have := h
          simp [List.find?_cons, ha] at this
          exact this
        subst hak
        simp [markFirstFreeUsed, ha]

/-! ### Claim theorems -/

/-- Claim C1, counterexample to the claim as stated: the claim asserts a
retry cap (e.g. 5 attempts) after which `allocate_key` surfaces a
ServiceUnavailable-class exhaustion error. In the source the
`except IntegrityError` handler is an unconditional recursive call with
no attempt counter and no error branch: under a run of 6 consecutive
integrity conflicts the function is still retrying (result `none` after
6 unfoldings) instead of having stopped at 5 attempts with an error. -/
theorem allocate_key_no_retry_cap_cex :
    allocate_key_run (fun _ => true) [] (fun _ _ => 0) 0 6 0 = none := rfl

/-- Claim C1 (amended): when a commit of a freshly generated code fails
with a uniqueness/integrity conflict, `allocate_key` rolls back and
recursively retries the whole operation with **no bound at all** — for
every number `n` of consecutive conflicts, the `(n+1)`-st attempt is
still made and, if it commits, its result is returned; a conflict is
therefore never surfaced to the caller in any form (there is no
ServiceUnavailable-class exhaustion error in the code). -/
theorem allocate_key_retries_without_bound
    (conflict : Nat → Bool) (pool : List KeyPool) (pick : Nat → Nat → Nat)
    (now : Int) (n : Nat)
    (hconf : ∀ k, k < n → conflict k = true) (hsucc : conflict n = false) :
    allocate_key_run conflict pool pick now (n + 1) 0 =
      some (allocate_key pool (pick n) now) := by
  have h := allocate_key_run_from conflict pool pick now n 0
    (by intro k hk; simpa using hconf k hk) (by simpa using hsucc)
  simpa using h

/-- Witness for C1's amended theorem: 100 consecutive conflicts (far past
any 5-attempt cap) are all absorbed and attempt 100 succeeds. -/
theorem allocate_key_retries_without_bound_witness :
    allocate_key_run (fun k => decide (k < 100)) [] (fun _ _ => 0) 0 101 0 =
      some (allocate_key [] ((fun _ _ => 0) 100) 0) :=
  allocate_key_retries_without_bound (fun k => decide (k < 100)) []
    (fun _ _ => 0) 0 100 (fun k hk => by simp [hk]) (by simp)

/-- Claim C2: `allocate_key` (conflict-free path) returns the code of a
slot that was free before the call — the one found by
`filter_by(used=False).first()` — and that slot is marked used in the
resulting pool; when no free slot exists it returns a freshly generated
code of exactly 8 characters drawn from `ascii_letters + digits`,
inserted as a new slot already marked used. -/
theorem allocate_key_spec (pool : List KeyPool) (pick : Nat → Nat) (now : Int) :
    (∀ k, firstFreeSlot pool = some k →
        (allocate_key pool pick now).1 = k.short_code ∧
        k ∈ pool ∧ k.used = false ∧
        { k with used := true } ∈ (allocate_key pool pick now).2) ∧
    (firstFreeSlot pool = none →
        (allocate_key pool pick now).1 = generate_short_code pick 8 ∧
        (allocate_key pool pick now).1.length = 8 ∧
        (∀ c ∈ (allocate_key pool pick now).1.toList, c ∈ allowed_chars) ∧
        (allocate_key pool pick now).2 =
          pool ++ [{ short_code := (allocate_key pool pick now).1,
                     used := true, created_at := now }]) := by
  constructor
  · intro k hk
    have halloc : allocate_key pool pick now = (k.short_code, markFirstFreeUsed pool) := by
      simp [allocate_key, hk]
    have hfind : pool.find? (fun s => !s.used) = some k := hk
    have hmem : k ∈ pool := List.mem_of_find?_eq_some hfind
    have hused : k.used = false := by
      have := List.find?_some hfind
      simpa using this
    refine ⟨?_, hmem, hused, ?_⟩
    · rw [halloc]
    · rw [halloc]
      exact markFirstFreeUsed_mem pool k hfind
  · intro hnone
    have halloc : allocate_key pool pick now =
        (generate_short_code pick 8,
         pool ++ [{ short_code := generate_short_code pick 8,
                    used := true, created_at := now }]) := by
      simp [allocate_key, hnone]
    refine ⟨?_, ?_, ?_, ?_⟩
    · rw [halloc]
    · rw [halloc]; exact generate_short_code_length pick 8
    · rw [halloc]; exact generate_short_code_chars pick 8
    · rw [halloc]

/-- Witness for C2: a pool whose second slot is free yields that slot's
code (marking it used); an empty pool yields a fresh 8-character code. -/
theorem allocate_key_spec_witness :
    (allocate_key [{ short_code := "usedcode", used := true, created_at := 0 },
                   { short_code := "freecode", used := false, created_at := 0 }]
        (fun _ => 0) 0).1 = "freecode" ∧
    ({ short_code := "freecode", used := true, created_at := 0 } : KeyPool) ∈
      (allocate_key [{ short_code := "usedcode", used := true, created_at := 0 },
                     { short_code := "freecode", used := false, created_at := 0 }]
        (fun _ => 0) 0).2 ∧
    (allocate_key [] (fun _ => 0) 0).1.length = 8 := by
  refine ⟨?_, ?_, ?_⟩
  · exact ((allocate_key_spec
      [{ short_code := "usedcode", used := true, created_at := 0 },
       { short_code := "freecode", used := false, created_at := 0 }]
      (fun _ => 0) 0).1
      { short_code := "freecode", used := false, created_at := 0 } (by decide)).1
  · exact ((allocate_key_spec
      [{ short_code := "usedcode", used := true, created_at := 0 },
       { short_code := "freecode", used := false, created_at := 0 }]
      (fun _ => 0) 0).1
      { short_code := "freecode", used := false, created_at := 0 } (by decide)).2.2.2
  · exact ((allocate_key_spec [] (fun _ => 0) 0).2 (by decide)).2.1

lemma redirect_short_url_eq (code : String) (cache : Cache) (store : List UrlDoc)
    (now : Int) :
    (redirect_short_url code cache store now).1 =
      match (get_url_mapping cache store code).1 with
      | none => RedirectResponse.notFound
      | some (u, some t) =>
          if now > t then RedirectResponse.expired else RedirectResponse.redirect u
      | some (u, none) => RedirectResponse.redirect u := by
  rcases hgu : get_url_mapping cache store code with ⟨v, cache'⟩
  rcases v with _ | ⟨u, t⟩
  · simp [redirect_short_url, hgu]
  · rcases t with _ | t
    · simp [redirect_short_url, hgu]
    · simp only [redirect_short_url, hgu]
      split <;> rfl

/-- Claim C5: `redirect_short_url` answers with exactly one of three
outcomes — `404` when the (cached) lookup yields no mapping, `410` when
the mapping's non-null expiry is strictly in the past, and otherwise a
`302` redirect to the stored long URL; an expired mapping is never
answered with a redirect. The function only reads the Mapping Store and
never touches the Key Pool (it takes the store immutably and returns
only the response and the possibly-populated cache), so no durable
state is mutated by a resolve. -/
theorem redirect_short_url_trichotomy (cache : Cache) (store : List UrlDoc)
    (code : String) (now : Int) :
    ((get_url_mapping cache store code).1 = none →
        (redirect_short_url code cache store now).1 = RedirectResponse.notFound) ∧
    (∀ u t, (get_url_mapping cache store code).1 = some (u, some t) → now > t →
        (redirect_short_url code cache store now).1 = RedirectResponse.expired) ∧
    (∀ u t, (get_url_mapping cache store code).1 = some (u, some t) → ¬ now > t →
        (redirect_short_url code cache store now).1 = RedirectResponse.redirect u) ∧
    (∀ u, (get_url_mapping cache store code).1 = some (u, none) →
        (redirect_short_url code cache store now).1 = RedirectResponse.redirect u) ∧
    (∀ u t u', (get_url_mapping cache store code).1 = some (u, some t) → now > t →
        (redirect_short_url code cache store now).1 ≠ RedirectResponse.redirect u') := by
  have h := redirect_short_url_eq code cache store now
  refine ⟨?_, ?_, ?_, ?_, ?_⟩
  · intro hv; rw [h, hv]
  · intro u t hv ht; rw [h, hv]; simp [ht]
  · intro u t hv ht; rw [h, hv]; simp [ht]
  · intro u hv; rw [h, hv]
  · intro u t u' hv ht; rw [h, hv]; simp [ht]

/-- Witness for C5 at concrete states: an unknown code gives `404`, an
expired mapping gives `410` (and is not a redirect), a live one `302`. -/
theorem redirect_short_url_trichotomy_witness :
    (redirect_short_url "zz" [] [] 0).1 = RedirectResponse.notFound ∧
    (redirect_short_url "ab" [] [⟨0, "ab", "http://x", some 3⟩] 5).1 =
      RedirectResponse.expired ∧
    (redirect_short_url "ab" [] [⟨0, "ab", "http://x", some 3⟩] 5).1 ≠
      RedirectResponse.redirect "http://x" ∧
    (redirect_short_url "ab" [] [⟨0, "ab", "http://x", some 3⟩] 2).1 =
      RedirectResponse.redirect "http://x" := by
  refine ⟨?_, ?_, ?_, ?_⟩
  · exact (redirect_short_url_trichotomy [] [] "zz" 0).1 (by decide)
  · exact (redirect_short_url_trichotomy [] [⟨0, "ab", "http://x", some 3⟩] "ab" 5).2.1
      "http://x" 3 (by decide) (by decide)
  · exact (redirect_short_url_trichotomy [] [⟨0, "ab", "http://x", some 3⟩] "ab" 5).2.2.2.2
      "http://x" 3 "http://x" (by decide) (by decide)
  · exact (redirect_short_url_trichotomy [] [⟨0, "ab", "http://x", some 3⟩] "ab" 2).2.2.1
      "http://x" 3 (by decide) (by decide)

/-- Claim C10: the expiry check at resolve is strict — for a mapping
whose lookup yields expiry timestamp `t`, the `410` outcome occurs
exactly when `now > t` (`datetime.now() > expires_at`), so resolving at
`now = t` still redirects; a mapping with a null expiry is never
answered `410`. -/
theorem redirect_short_url_expiry_strict (cache : Cache) (store : List UrlDoc)
    (code : String) (now : Int) :
    (∀ u t, (get_url_mapping cache store code).1 = some (u, some t) →
        (((redirect_short_url code cache store now).1 = RedirectResponse.expired) ↔
          t < now) ∧
        (now = t →
          (redirect_short_url code cache store now).1 = RedirectResponse.redirect u)) ∧
    (∀ u, (get_url_mapping cache store code).1 = some (u, none) →
        (redirect_short_url code cache store now).1 ≠ RedirectResponse.expired) := by
  have h := redirect_short_url_eq code cache store now
  constructor
  · intro u t hv
    constructor
    · rw [h, hv]
      by_cases hc : now > t
      · simp [hc]
      · simp [hc]
    · intro hnow
      rw [h, hv]
      subst hnow
      simp
  · intro u hv
    rw [h, hv]
    simp

/-- Witness for C10: at `now = t` exactly, the mapping still redirects;
one second later it is expired; a null expiry never expires. -/
theorem redirect_short_url_expiry_strict_witness :
    (redirect_short_url "ab" [] [⟨0, "ab", "http://x", some 7⟩] 7).1 =
      RedirectResponse.redirect "http://x" ∧
    ((redirect_short_url "ab" [] [⟨0, "ab", "http://x", some 7⟩] 8).1 =
      RedirectResponse.expired ↔ (7 : Int) < 8) ∧
    (redirect_short_url "cd" [] [⟨0, "cd", "http://y", none⟩] 99).1 ≠
      RedirectResponse.expired := by
  refine ⟨?_, ?_, ?_⟩
  · exact ((redirect_short_url_expiry_strict [] [⟨0, "ab", "http://x", some 7⟩] "ab" 7).1
      "http://x" 7 (by decide)).2 rfl
  · exact ((redirect_short_url_expiry_strict [] [⟨0, "ab", "http://x", some 7⟩] "ab" 8).1
      "http://x" 7 (by decide)).1
  · exact (redirect_short_url_expiry_strict [] [⟨0, "cd", "http://y", none⟩] "cd" 99).2
      "http://y" (by decide)

/-- Claim C6, counterexample to the claim as stated: the claim's `400`
branch covers only a body with **no** `long_url`, so a body carrying
`long_url = ""` should, by the claim, be answered `201` after
allocating a code and storing a mapping. The source's guard is Python
falsiness (`if not long_url`), so the empty string is also rejected
with `400` and nothing is mutated. -/
theorem shorten_url_empty_long_url_cex :
    shorten_url { long_url := some "", expires_in_days := none }
        { pool := [], store := [], cache := [], nextId := 0 } (fun _ => 0) 0 =
      (ShortenResponse.badRequest,
       { pool := [], store := [], cache := [], nextId := 0 }) := rfl

/-- Claim C6 (amended): if the request body has no `long_url` **or an
empty `long_url` string**, the operation returns `400` and mutates no
state; otherwise it allocates a code, stores the mapping with
`expires_at = now + expires_in_days` days (defaulting to 365 when the
caller omits `expires_in_days`), invalidates the cache, and returns
`201` carrying `BASE_URL ++ code`, the long URL, and that expiry. -/
theorem shorten_url_spec (req : ShortenRequest) (st : AppState)
    (pick : Nat → Nat) (now : Int) :
    ((req.long_url = none ∨ req.long_url = some "") →
        shorten_url req st pick now = (ShortenResponse.badRequest, st)) ∧
    (∀ u, req.long_url = some u → u ≠ "" →
        shorten_url req st pick now =
          (ShortenResponse.created (BASE_URL ++ (allocate_key st.pool pick now).1) u
              (now + req.expires_in_days.getD 365 * 86400),
           { pool := (allocate_key st.pool pick now).2,
             store := st.store ++
               [{ id := st.nextId,
                  short_code := (allocate_key st.pool pick now).1,
                  long_url := u,
                  expires_at := some (now + req.expires_in_days.getD 365 * 86400) }],
             cache := invalidate_cache,
             nextId := st.nextId + 1 })) := by
  constructor
  · rintro (h | h) <;> simp [shorten_url, h]
  · intro u hu hne
    simp [shorten_url, hu, hne]

/-- Witness for C6's amended theorem: a missing `long_url` is rejected
without mutation; a non-empty one is allocated, stored and answered. -/
theorem shorten_url_spec_witness :
    shorten_url { long_url := none, expires_in_days := none }
        { pool := [], store := [], cache := [], nextId := 0 } (fun _ => 0) 0 =
      (ShortenResponse.badRequest,
       { pool := [], store := [], cache := [], nextId := 0 }) ∧
    shorten_url { long_url := some "http://example.com", expires_in_days := none }
        { pool := [], store := [], cache := [], nextId := 0 } (fun _ => 0) 0 =
      (ShortenResponse.created
          (BASE_URL ++ (allocate_key [] (fun _ => 0) 0).1) "http://example.com"
          (0 + (none : Option Int).getD 365 * 86400),
       { pool := (allocate_key [] (fun _ => 0) 0).2,
         store := [] ++
           [{ id := 0,
              short_code := (allocate_key [] (fun _ => 0) 0).1,
              long_url := "http://example.com",
              expires_at := some (0 + (none : Option Int).getD 365 * 86400) }],
         cache := invalidate_cache,
         nextId := 0 + 1 }) := by
  constructor
  · exact (shorten_url_spec { long_url := none, expires_in_days := none }
      { pool := [], store := [], cache := [], nextId := 0 } (fun _ => 0) 0).1
      (Or.inl rfl)
  · exact (shorten_url_spec
      { long_url := some "http://example.com", expires_in_days := none }
      { pool := [], store := [], cache := [], nextId := 0 } (fun _ => 0) 0).2
      "http://example.com" rfl (by decide)

/-- Claim C9 (implicit): every mapping document added to the store by a
successful `POST /shorten` carries a non-null `expires_at`, equal to
the creation time plus the retention window — the data model's
nullable never-expires case is unreachable from the create path. -/
theorem shorten_url_created_expiry_nonnull (req : ShortenRequest)
    (st : AppState) (pick : Nat → Nat) (now : Int) (u : String)
    (hu : req.long_url = some u) (hne : u ≠ "") :
    ∀ d ∈ (shorten_url req st pick now).2.store,
      d ∈ st.store ∨
      d.expires_at = some (now + req.expires_in_days.getD 365 * 86400) := by
  intro d hd
  simp only [shorten_url, hu] at hd
  rw [if_neg hne] at hd
  simp only [List.mem_append, List.mem_singleton] at hd
  rcases hd with hd | rfl
  · exact Or.inl hd
  · exact Or.inr rfl

/-- Witness for C9: the single document a concrete create adds has the
non-null expiry `now + 2 days`. -/
theorem shorten_url_created_expiry_nonnull_witness :
    ({ id := 5, short_code := (allocate_key [] (fun _ => 1) 10).1,
       long_url := "http://e",
       expires_at := some (10 + (some 2 : Option Int).getD 365 * 86400) } : UrlDoc) ∈
      ({ pool := [], store := [], cache := [], nextId := 5 } : AppState).store ∨
    ({ id := 5, short_code := (allocate_key [] (fun _ => 1) 10).1,
       long_url := "http://e",
       expires_at := some (10 + (some 2 : Option Int).getD 365 * 86400) } : UrlDoc).expires_at =
      some (10 + (some 2 : Option Int).getD 365 * 86400) :=
  shorten_url_created_expiry_nonnull
    { long_url := some "http://e", expires_in_days := some 2 }
    { pool := [], store := [], cache := [], nextId := 5 } (fun _ => 1) 10
    "http://e" rfl (by decide) _ (by simp [shorten_url, allocate_key, firstFreeSlot])

lemma setUsedFalseFirst_codes (c : String) :
    ∀ l : List KeyPool,
      (setUsedFalseFirst c l).map KeyPool.short_code = l.map KeyPool.short_code := by
  intro l
  induction l with
  | nil => rfl
  | cons k rest ih =>
      by_cases h : k.short_code = c
      · simp [setUsedFalseFirst, h]
      · simp [setUsedFalseFirst, h, ih]

lemma setUsedFalseFirst_idem (c : String) :
    ∀ l : List KeyPool,
      setUsedFalseFirst c (setUsedFalseFirst c l) = setUsedFalseFirst c l := by
  intro l
  induction l with
  | nil => rfl
  | cons k rest ih =>
      by_cases h : k.short_code = c
      · simp [setUsedFalseFirst, h]
      · simp [setUsedFalseFirst, h, ih]

lemma setUsedFalseFirst_sets (c : String) :
    ∀ l : List KeyPool, l.Pairwise (fun a b => a.short_code ≠ b.short_code) →
      ∀ k ∈ setUsedFalseFirst c l, k.short_code = c → k.used = false := by
  intro l
  induction l with
  | nil => simp [setUsedFalseFirst]
  | cons a rest ih =>
      intro hp k hk hkc
      rcases List.pairwise_cons.mp hp with ⟨ha, hrest⟩
      by_cases h : a.short_code = c
      · simp only [setUsedFalseFirst, if_pos h, List.mem_cons] at hk
        rcases hk with rfl | hk
        · rfl
        · exact absurd (h.trans hkc.symm) (ha k hk)
      · simp only [setUsedFalseFirst, if_neg h, List.mem_cons] at hk
        rcases hk with rfl | hk
        · exact absurd hkc h
        · exact ih hrest k hk hkc

lemma recycle_key_pool_true (pool : List KeyPool) (code : String) :
    recycle_key_pool pool code true =
      match pool.find? (fun k => k.short_code = code) with
      | none => pool
      | some _ => setUsedFalseFirst code pool := by
  unfold recycle_key_pool recycle_key
  cases hf : pool.find? (fun k => k.short_code = code) <;> simp [commit]

lemma find_code_setUsedFalseFirst (pool : List KeyPool) (c : String) (k : KeyPool)
    (h : pool.find? (fun s => s.short_code = c) = some k) :
    ∃ k', (setUsedFalseFirst c pool).find? (fun s => s.short_code = c) = some k' := by
  cases hf : (setUsedFalseFirst c pool).find? (fun s => s.short_code = c) with
  | some k' => exact ⟨k', rfl⟩
  | none =>
      exfalso
      have hall := List.find?_eq_none.mp hf
      have hmem : k ∈ pool := List.mem_of_find?_eq_some h
      have hkc : k.short_code = c := by simpa using List.find?_some h
      have hc : c ∈ (setUsedFalseFirst c pool).map KeyPool.short_code := by
        rw [setUsedFalseFirst_codes]
        exact List.mem_map.mpr ⟨k, hmem, hkc⟩
      rcases List.mem_map.mp hc with ⟨k', hk', hk'c⟩
      have hne : ¬ (k'.short_code = c) := by simpa using hall k' hk'
      exact hne hk'c

/-- Claim C8: `recycle_key` never raises to its caller and is
idempotent: with an existing slot it sets `used = False` (and a second
call leaves the state identical); with no slot it is a no-op; a failing
commit is rolled back and silently absorbed, leaving the pool exactly
as before the call. -/
theorem recycle_key_spec (pool : List KeyPool) (code : String) (ok : Bool) :
    (∃ p, recycle_key pool code ok = Except.ok p) ∧
    (pool.find? (fun k => k.short_code = code) = none →
        recycle_key pool code ok = Except.ok pool) ∧
    (recycle_key pool code false = Except.ok pool) ∧
    (pool.Pairwise (fun a b => a.short_code ≠ b.short_code) →
        ∀ k ∈ recycle_key_pool pool code true, k.short_code = code → k.used = false) ∧
    (recycle_key_pool (recycle_key_pool pool code true) code true =
        recycle_key_pool pool code true) := by
  refine ⟨?_, ?_, ?_, ?_, ?_⟩
  · unfold recycle_key
    cases hf : pool.find? (fun k => k.short_code = code) with
    | none => exact ⟨pool, rfl⟩
    | some k =>
        cases ok with
        | true =>
            refine ⟨setUsedFalseFirst code pool, ?_⟩
            simp [commit]
        | false =>
            refine ⟨pool, ?_⟩
            simp [commit]
  · intro hf
    unfold recycle_key
    rw [hf]
  · unfold recycle_key
    cases hf : pool.find? (fun k => k.short_code = code) <;> simp [commit]
  · intro hp k hk hkc
    rw [recycle_key_pool_true] at hk
    cases hf : pool.find? (fun k => k.short_code = code) with
    | none =>
        rw [hf] at hk
        have hall := List.find?_eq_none.mp hf
        exact absurd hkc (by simpa using hall k hk)
    | some k0 =>
        rw [hf] at hk
        exact setUsedFalseFirst_sets code pool hp k hk hkc
  · cases hf : pool.find? (fun k => k.short_code = code) with
    | none => simp only [recycle_key_pool_true, hf]
    | some k0 =>
        rcases find_code_setUsedFalseFirst pool code k0 hf with ⟨k', hk'⟩
        simp only [recycle_key_pool_true, hf, hk', setUsedFalseFirst_idem]

/-- Witness for C8 at a concrete pool: the call yields `ok`, a missing
slot is a no-op, a failed commit leaves the slot used, the present
slot's flag is cleared, and a second recycle changes nothing. -/
theorem recycle_key_spec_witness :
    (∃ p, recycle_key [⟨"cc", true, 0⟩] "cc" true = Except.ok p) ∧
    recycle_key [⟨"cc", true, 0⟩] "zz" true = Except.ok [⟨"cc", true, 0⟩] ∧
    recycle_key [⟨"cc", true, 0⟩] "cc" false = Except.ok [⟨"cc", true, 0⟩] ∧
    ({ short_code := "cc", used := false, created_at := 0 } : KeyPool).used = false ∧
    recycle_key_pool (recycle_key_pool [⟨"cc", true, 0⟩] "cc" true) "cc" true =
      recycle_key_pool [⟨"cc", true, 0⟩] "cc" true := by
  refine ⟨?_, ?_, ?_, ?_, ?_⟩
  · exact (recycle_key_spec [⟨"cc", true, 0⟩] "cc" true).1
  · exact (recycle_key_spec [⟨"cc", true, 0⟩] "zz" true).2.1 (by decide)
  · exact (recycle_key_spec [⟨"cc", true, 0⟩] "cc" true).2.2.1
  · exact (recycle_key_spec [⟨"cc", true, 0⟩] "cc" true).2.2.2.1 (by decide)
      ⟨"cc", false, 0⟩ (by decide) rfl
  · exact (recycle_key_spec [⟨"cc", true, 0⟩] "cc" true).2.2.2.2

lemma get_url_mapping_cleared (store : List UrlDoc) (code : String) :
    (get_url_mapping invalidate_cache store code).1 = mapping_store_lookup store code := rfl

/-- Claim C4: the create path invalidates the whole cache after its
store insert, and a sweep cycle that found at least one expired record
invalidates the whole cache after its deletes; consequently a lookup
performed after either mutation computes its answer from the current
Mapping Store (the cleared cache forces a store read), never from a
pre-mutation cache entry — for **every** pre-mutation cache state. -/
theorem cache_invalidated_after_mutation :
    (∀ (req : ShortenRequest) (st : AppState) (pick : Nat → Nat) (now : Int)
        (u : String), req.long_url = some u → u ≠ "" →
      (shorten_url req st pick now).2.cache = invalidate_cache ∧
      ∀ c, (get_url_mapping (shorten_url req st pick now).2.cache
              (shorten_url req st pick now).2.store c).1
           = mapping_store_lookup (shorten_url req st pick now).2.store c) ∧
    (∀ (now : Int) (store : List UrlDoc) (pool : List KeyPool) (cache : Cache)
        (ok : String → Bool), store.filter (isExpired now) ≠ [] →
      (cleanup_expired_urls now store pool cache ok).2.2 = invalidate_cache ∧
      ∀ c, (get_url_mapping (cleanup_expired_urls now store pool cache ok).2.2
              (cleanup_expired_urls now store pool cache ok).1 c).1
           = mapping_store_lookup (cleanup_expired_urls now store pool cache ok).1 c) := by
  constructor
  · intro req st pick now u hu hne
    have hcache : (shorten_url req st pick now).2.cache = invalidate_cache := by
      simp [shorten_url, hu, hne]
    refine ⟨hcache, ?_⟩
    intro c
    rw [hcache]
    exact get_url_mapping_cleared _ c
  · intro now store pool cache ok hne
    have hcache : (cleanup_expired_urls now store pool cache ok).2.2 = invalidate_cache := by
      cases hE : store.filter (isExpired now) with
      | nil => exact absurd hE hne
      | cons d ds => simp [cleanup_expired_urls, hE]
    refine ⟨hcache, ?_⟩
    intro c
    rw [hcache]
    exact get_url_mapping_cleared _ c

/-- Witness for C4: a concrete create and a concrete non-empty sweep
both leave the cache empty, and a post-mutation lookup of the touched
code reads the store. -/
theorem cache_invalidated_after_mutation_witness :
    (shorten_url { long_url := some "http://e", expires_in_days := none }
        { pool := [], store := [], cache := [("old", some ("stale", none))], nextId := 0 }
        (fun _ => 0) 0).2.cache = invalidate_cache ∧
    (cleanup_expired_urls 5 [⟨0, "ab", "http://x", some 3⟩] []
        [("ab", some ("http://x", some 3))] (fun _ => true)).2.2 = invalidate_cache ∧
    (get_url_mapping
        (cleanup_expired_urls 5 [⟨0, "ab", "http://x", some 3⟩] []
          [("ab", some ("http://x", some 3))] (fun _ => true)).2.2
        (cleanup_expired_urls 5 [⟨0, "ab", "http://x", some 3⟩] []
          [("ab", some ("http://x", some 3))] (fun _ => true)).1 "ab").1
      = mapping_store_lookup
          (cleanup_expired_urls 5 [⟨0, "ab", "http://x", some 3⟩] []
            [("ab", some ("http://x", some 3))] (fun _ => true)).1 "ab" := by
  refine ⟨?_, ?_, ?_⟩
  · exact (cache_invalidated_after_mutation.1
      { long_url := some "http://e", expires_in_days := none }
      { pool := [], store := [], cache := [("old", some ("stale", none))], nextId := 0 }
      (fun _ => 0) 0 "http://e" rfl (by decide)).1
  · exact (cache_invalidated_after_mutation.2 5 [⟨0, "ab", "http://x", some 3⟩] []
      [("ab", some ("http://x", some 3))] (fun _ => true) (by decide)).1
  · exact (cache_invalidated_after_mutation.2 5 [⟨0, "ab", "http://x", some 3⟩] []
      [("ab", some ("http://x", some 3))] (fun _ => true) (by decide)).2 "ab"


lemma pairwise_key_eq {A B : Type _} (f : A → B) :
    ∀ (l : List A), l.Pairwise (fun a b => f a ≠ f b) →
      ∀ a ∈ l, ∀ b ∈ l, f a = f b → a = b := by
  intro l
  induction l with
  | nil => simp
  | cons x xs ih =>
      intro hp a ha b hb hfab
      rcases List.pairwise_cons.mp hp with ⟨hx, hxs⟩
      rcases List.mem_cons.mp ha with rfl | ha'
      · rcases List.mem_cons.mp hb with rfl | hb'
        · rfl
        · exact absurd hfab (hx b hb')
      · rcases List.mem_cons.mp hb with rfl | hb'
        · exact absurd hfab.symm (hx a ha')
        · exact ih hxs a ha' b hb' hfab

lemma deleteOneById_eq_filter : ∀ (l : List UrlDoc) (i : Nat),
    l.Pairwise (fun a b => a.id ≠ b.id) →
    deleteOneById l i = l.filter (fun e => e.id ≠ i) := by
  intro l i
  induction l with
  | nil => intro _; rfl
  | cons d rest ih =>
      intro hp
      rcases List.pairwise_cons.mp hp with ⟨hd, hrest⟩
      by_cases h : d.id = i
      · simp only [deleteOneById, if_pos h]
        have hstep : List.filter (fun e => decide (e.id ≠ i)) (d :: rest)
            = List.filter (fun e => decide (e.id ≠ i)) rest := by
          simp [List.filter_cons, h]
        rw [hstep]
        have hall : ∀ e ∈ rest, decide (e.id ≠ i) = true := by
          intro e he
          have hne : e.id ≠ i := fun hei => hd e he (h.trans hei.symm)
          simpa using hne
        exact (List.filter_eq_self.mpr hall).symm
      · simp only [deleteOneById, if_neg h]
        have hstep : List.filter (fun e => decide (e.id ≠ i)) (d :: rest)
            = d :: List.filter (fun e => decide (e.id ≠ i)) rest := by
          simp [List.filter_cons, h]
        rw [hstep, ih hrest]

lemma sweep_fold_fst (ok : String → Bool) :
    ∀ (docs : List UrlDoc) (store : List UrlDoc) (pool : List KeyPool),
      (docs.foldl (sweepStep ok) (store, pool)).1 =
        docs.foldl (fun s d => deleteOneById s d.id) store := by
  intro docs
  induction docs with
  | nil => intro store pool; rfl
  | cons d ds ih =>
      intro store pool
      exact ih (deleteOneById store d.id) (recycle_key_pool pool d.short_code (ok d.short_code))

lemma sweep_fold_snd (ok : String → Bool) :
    ∀ (docs : List UrlDoc) (store : List UrlDoc) (pool : List KeyPool),
      (docs.foldl (sweepStep ok) (store, pool)).2 =
        docs.foldl (fun p d => recycle_key_pool p d.short_code (ok d.short_code)) pool := by
  intro docs
  induction docs with
  | nil => intro store pool; rfl
  | cons d ds ih =>
      intro store pool
      exact ih (deleteOneById store d.id) (recycle_key_pool pool d.short_code (ok d.short_code))

lemma fold_delete_eq_filter :
    ∀ (docs : List UrlDoc) (store : List UrlDoc),
      store.Pairwise (fun a b => a.id ≠ b.id) →
      docs.foldl (fun s d => deleteOneById s d.id) store =
        store.filter (fun e => e.id ∉ docs.map UrlDoc.id) := by
  intro docs
  induction docs with
  | nil =>
      intro store _
      simp
  | cons d ds ih =>
      intro store hp
      have h1 : (d :: ds).foldl (fun s x => deleteOneById s x.id) store =
          ds.foldl (fun s x => deleteOneById s x.id) (deleteOneById store d.id) := rfl
      rw [h1, deleteOneById_eq_filter store d.id hp,
        ih _ (hp.filter _), List.filter_filter]
      apply List.filter_congr
      intro e _
      by_cases h2 : e.id = d.id
      · simp [h2]
      · by_cases h3 : e.id ∈ ds.map UrlDoc.id <;> simp [h2, h3]

lemma setUsedFalseFirst_eq_map (c : String) :
    ∀ l : List KeyPool, l.Pairwise (fun a b => a.short_code ≠ b.short_code) →
      setUsedFalseFirst c l =
        l.map (fun k => if k.short_code = c then { k with used := false } else k) := by
  intro l
  induction l with
  | nil => intro _; rfl
  | cons a rest ih =>
      intro hp
      rcases List.pairwise_cons.mp hp with ⟨ha, hrest⟩
      by_cases h : a.short_code = c
      · simp only [setUsedFalseFirst, if_pos h, List.map_cons]
        congr 1
        have hpt : ∀ k ∈ rest,
            (if k.short_code = c then { k with used := false } else k) = id k := by
          intro k hk
          have hkc : k.short_code ≠ c := fun hx => ha k hk (h.trans hx.symm)
          simp [hkc]
        rw [List.map_eq_map_iff.mpr hpt, List.map_id]
      · simp only [setUsedFalseFirst, if_neg h, List.map_cons, ih hrest]

lemma set_code_eq (c : String) (k : KeyPool) :
    (if k.short_code = c then { k with used := false } else k).short_code
      = k.short_code := by
  by_cases h : k.short_code = c <;> simp [h]

lemma recycle_key_pool_eq_map (pool : List KeyPool) (c : String)
    (hp : pool.Pairwise (fun a b => a.short_code ≠ b.short_code)) :
    recycle_key_pool pool c true =
      pool.map (fun k => if k.short_code = c then { k with used := false } else k) := by
  cases hf : pool.find? (fun k => k.short_code = c) with
  | none =>
      have hall := List.find?_eq_none.mp hf
      have hpt : ∀ k ∈ pool,
          (if k.short_code = c then { k with used := false } else k) = id k := by
        intro k hk
        have hkc : ¬ (k.short_code = c) := by simpa using hall k hk
        simp [hkc]
      simp only [recycle_key_pool_true, hf]
      rw [List.map_eq_map_iff.mpr hpt, List.map_id]
  | some k0 =>
      simp only [recycle_key_pool_true, hf]
      exact setUsedFalseFirst_eq_map c pool hp

lemma recycle_pairwise_preserved (pool : List KeyPool) (c : String)
    (hp : pool.Pairwise (fun a b => a.short_code ≠ b.short_code)) :
    (recycle_key_pool pool c true).Pairwise
      (fun a b => a.short_code ≠ b.short_code) := by
  rw [recycle_key_pool_eq_map pool c hp, List.pairwise_map]
  apply hp.imp
  intro a b hab
  rw [set_code_eq, set_code_eq]
  exact hab

lemma recycle_fold_spec :
    ∀ (codes : List String) (pool : List KeyPool),
      pool.Pairwise (fun a b => a.short_code ≠ b.short_code) →
      ∀ k ∈ codes.foldl (fun p c => recycle_key_pool p c true) pool,
        (k.short_code ∈ codes → k.used = false) ∧
        (k.short_code ∉ codes → k ∈ pool) := by
  intro codes
  induction codes with
  | nil =>
      intro pool _ k hk
      exact ⟨by simp, fun _ => hk⟩
  | cons c cs ih =>
      intro pool hp k hk
      have hfold : (c :: cs).foldl (fun p x => recycle_key_pool p x true) pool
          = cs.foldl (fun p x => recycle_key_pool p x true)
              (recycle_key_pool pool c true) := rfl
      rw [hfold] at hk
      have hp1 := recycle_pairwise_preserved pool c hp
      have h := ih (recycle_key_pool pool c true) hp1 k hk
      constructor
      · intro hmem
        rcases List.mem_cons.mp hmem with hc | hcs
        · by_cases hincs : k.short_code ∈ cs
          · exact h.1 hincs
          · have hk1 : k ∈ recycle_key_pool pool c true := h.2 hincs
            rw [recycle_key_pool_eq_map pool c hp] at hk1
            rcases List.mem_map.mp hk1 with ⟨k0, hk0, hfk0⟩
            by_cases h0 : k0.short_code = c
            · rw [if_pos h0] at hfk0
              rw [← hfk0]
            · rw [if_neg h0] at hfk0
              exfalso
              apply h0
              rw [hfk0]
              exact hc
        · exact h.1 hcs
      · intro hnmem
        have hk1 : k ∈ recycle_key_pool pool c true :=
          h.2 (fun hcs => hnmem (List.mem_cons_of_mem c hcs))
        have hkc : k.short_code ≠ c :=
          fun hx => hnmem (hx ▸ List.mem_cons_self c cs)
        rw [recycle_key_pool_eq_map pool c hp] at hk1
        rcases List.mem_map.mp hk1 with ⟨k0, hk0, hfk0⟩
        by_cases h0 : k0.short_code = c
        · rw [if_pos h0] at hfk0
          exfalso
          apply hkc
          rw [← hfk0]
          exact h0
        · rw [if_neg h0] at hfk0
          rw [← hfk0]
          exact hk0


/-- Claim C3: after one sweep cycle at time `now` with all recycle
commits succeeding, every mapping with `expires_at < now` is gone from
the Mapping Store and every slot bearing its short code is free
(`used = false`); mappings not matching `expires_at < now` survive
untouched (the surviving store is exactly the filter of the old one).
Hypotheses: the store's `_id`s are distinct (Mongo ObjectIds) and the
pool's codes are distinct (SQL unique constraint). -/
theorem cleanup_expired_urls_sweep_effect
    (now : Int) (store : List UrlDoc) (pool : List KeyPool) (cache : Cache)
    (ok : String → Bool)
    (hid : store.Pairwise (fun a b => a.id ≠ b.id))
    (hpool : pool.Pairwise (fun a b => a.short_code ≠ b.short_code))
    (hok : ∀ c, ok c = true) :
    (cleanup_expired_urls now store pool cache ok).1
        = store.filter (fun d => !(isExpired now d)) ∧
    (∀ d ∈ store, isExpired now d = true →
        d ∉ (cleanup_expired_urls now store pool cache ok).1 ∧
        (∀ k ∈ (cleanup_expired_urls now store pool cache ok).2.1,
          k.short_code = d.short_code → k.used = false)) ∧
    (∀ d ∈ store, isExpired now d = false →
        d ∈ (cleanup_expired_urls now store pool cache ok).1) := by
  have hfst : (cleanup_expired_urls now store pool cache ok).1 =
      ((store.filter (isExpired now)).foldl (sweepStep ok) (store, pool)).1 := rfl
  have hsnd : (cleanup_expired_urls now store pool cache ok).2.1 =
      ((store.filter (isExpired now)).foldl (sweepStep ok) (store, pool)).2 := rfl
  have hstore : (cleanup_expired_urls now store pool cache ok).1 =
      store.filter (fun d => !(isExpired now d)) := by
    rw [hfst, sweep_fold_fst, fold_delete_eq_filter _ _ hid]
    apply List.filter_congr
    intro e he
    by_cases hexp : isExpired now e
    · have hmem : e.id ∈ (store.filter (isExpired now)).map UrlDoc.id :=
        List.mem_map_of_mem UrlDoc.id (List.mem_filter.mpr ⟨he, hexp⟩)
      simp [hmem, hexp]
    · have hnmem : e.id ∉ (store.filter (isExpired now)).map UrlDoc.id := by
        intro hmem
        rcases List.mem_map.mp hmem with ⟨d', hd', hd'id⟩
        have hd'store : d' ∈ store := (List.mem_filter.mp hd').1
        have hde : d' = e := pairwise_key_eq UrlDoc.id store hid d' hd'store e he hd'id
        exact hexp (hde ▸ (List.mem_filter.mp hd').2)
      simp [hnmem, hexp]
  refine ⟨hstore, ?_, ?_⟩
  · intro d hd hdexp
    constructor
    · rw [hstore]
      intro hmem
      have := (List.mem_filter.mp hmem).2
      rw [hdexp] at this
      simp at this
    · intro k hk hkcode
      rw [hsnd, sweep_fold_snd] at hk
      simp only [hok] at hk
      have hfold : (store.filter (isExpired now)).foldl
            (fun p x => recycle_key_pool p x.short_code true) pool
          = ((store.filter (isExpired now)).map UrlDoc.short_code).foldl
              (fun p c => recycle_key_pool p c true) pool := by
        rw [List.foldl_map]
      rw [hfold] at hk
      have hspec := recycle_fold_spec
        ((store.filter (isExpired now)).map UrlDoc.short_code) pool hpool k hk
      apply hspec.1
      rw [hkcode]
      exact List.mem_map_of_mem UrlDoc.short_code (List.mem_filter.mpr ⟨hd, hdexp⟩)
  · intro d hd hdexp
    rw [hstore]
    apply List.mem_filter.mpr
    exact ⟨hd, by simp [hdexp]⟩

/-- Witness for C3 at a concrete state: one expired and one live
mapping; after the sweep the expired one is gone, its slot is free,
and the live one survives. -/
theorem cleanup_expired_urls_sweep_effect_witness :
    (cleanup_expired_urls 5
        [⟨0, "ab", "http://x", some 3⟩, ⟨1, "cd", "http://y", some 9⟩]
        [⟨"ab", true, 0⟩, ⟨"cd", true, 0⟩] [] (fun _ => true)).1
      = List.filter (fun d => !(isExpired 5 d))
          [⟨0, "ab", "http://x", some 3⟩, ⟨1, "cd", "http://y", some 9⟩] ∧
    (⟨0, "ab", "http://x", some 3⟩ : UrlDoc) ∉
      (cleanup_expired_urls 5
        [⟨0, "ab", "http://x", some 3⟩, ⟨1, "cd", "http://y", some 9⟩]
        [⟨"ab", true, 0⟩, ⟨"cd", true, 0⟩] [] (fun _ => true)).1 ∧
    (⟨1, "cd", "http://y", some 9⟩ : UrlDoc) ∈
      (cleanup_expired_urls 5
        [⟨0, "ab", "http://x", some 3⟩, ⟨1, "cd", "http://y", some 9⟩]
        [⟨"ab", true, 0⟩, ⟨"cd", true, 0⟩] [] (fun _ => true)).1 := by
  refine ⟨?_, ?_, ?_⟩
  · exact (cleanup_expired_urls_sweep_effect 5
      [⟨0, "ab", "http://x", some 3⟩, ⟨1, "cd", "http://y", some 9⟩]
      [⟨"ab", true, 0⟩, ⟨"cd", true, 0⟩] [] (fun _ => true)
      (by decide) (by decide) (fun _ => rfl)).1
  · exact ((cleanup_expired_urls_sweep_effect 5
      [⟨0, "ab", "http://x", some 3⟩, ⟨1, "cd", "http://y", some 9⟩]
      [⟨"ab", true, 0⟩, ⟨"cd", true, 0⟩] [] (fun _ => true)
      (by decide) (by decide) (fun _ => rfl)).2.1
      ⟨0, "ab", "http://x", some 3⟩ (by decide) (by decide)).1
  · exact (cleanup_expired_urls_sweep_effect 5
      [⟨0, "ab", "http://x", some 3⟩, ⟨1, "cd", "http://y", some 9⟩]
      [⟨"ab", true, 0⟩, ⟨"cd", true, 0⟩] [] (fun _ => true)
      (by decide) (by decide) (fun _ => rfl)).2.2
      ⟨1, "cd", "http://y", some 9⟩ (by decide) (by decide)


/-- Claim C7: within a sweep cycle, consider the moment the loop
processes the expired document `d` — the expired batch splits as
`done ++ d :: rest` and the state reached so far is the fold of
`sweepStep` over `done`. The step's store output is exactly the result
of the delete (the recycle half of `sweepStep` does not touch the
store), and at the instant the recycle of `d.short_code` runs — i.e.
after the delete — **no** document bearing that short code remains in
the store: the sweep never frees a slot while its mapping is present.
`cleanup_expired_urls` is the fold of `sweepStep` over the whole batch,
as the first conjunct records. Hypotheses: distinct `_id`s and distinct
short codes in the store. -/
theorem sweep_deletes_mapping_before_recycling_slot
    (now : Int) (store : List UrlDoc) (pool : List KeyPool) (cache : Cache)
    (ok : String → Bool) (done : List UrlDoc) (d : UrlDoc) (rest : List UrlDoc)
    (hid : store.Pairwise (fun a b => a.id ≠ b.id))
    (hcode : store.Pairwise (fun a b => a.short_code ≠ b.short_code))
    (hsplit : store.filter (isExpired now) = done ++ d :: rest) :
    (cleanup_expired_urls now store pool cache ok).1 =
      ((done ++ d :: rest).foldl (sweepStep ok) (store, pool)).1 ∧
    (sweepStep ok (done.foldl (sweepStep ok) (store, pool)) d).1
        = deleteOneById (done.foldl (sweepStep ok) (store, pool)).1 d.id ∧
    (∀ e ∈ deleteOneById (done.foldl (sweepStep ok) (store, pool)).1 d.id,
        e.short_code ≠ d.short_code) := by
  refine ⟨?_, rfl, ?_⟩
  · have : (cleanup_expired_urls now store pool cache ok).1 =
        ((store.filter (isExpired now)).foldl (sweepStep ok) (store, pool)).1 := rfl
    rw [this, hsplit]
  · intro e he
    have hs1 : (done.foldl (sweepStep ok) (store, pool)).1 =
        store.filter (fun x => x.id ∉ done.map UrlDoc.id) := by
      rw [sweep_fold_fst, fold_delete_eq_filter done store hid]
    rw [hs1] at he
    have hps1 : (store.filter (fun x => x.id ∉ done.map UrlDoc.id)).Pairwise
        (fun a b => a.id ≠ b.id) := hid.filter _
    rw [deleteOneById_eq_filter _ d.id hps1] at he
    obtain ⟨he2, hq⟩ := List.mem_filter.mp he
    obtain ⟨hestore, _⟩ := List.mem_filter.mp he2
    have heid : e.id ≠ d.id := by simpa using hq
    have hd_store : d ∈ store := by
      have hmem : d ∈ store.filter (isExpired now) := by
        rw [hsplit]
        exact List.mem_append.mpr (Or.inr (List.mem_cons_self d rest))
      exact (List.mem_filter.mp hmem).1
    intro hcontra
    have hede : e = d :=
      pairwise_key_eq UrlDoc.short_code store hcode e hestore d hd_store hcontra
    exact heid (by rw [hede])

/-- Witness for C7 at a concrete state: a single expired document
(`done = []`, `rest = []`); right after its delete, no mapping with
its code remains, so its recycle is safe. -/
theorem sweep_deletes_mapping_before_recycling_slot_witness :
    (cleanup_expired_urls 5 [⟨0, "ab", "http://x", some 3⟩] [⟨"ab", true, 0⟩]
        [] (fun _ => true)).1 =
      (([] ++ (⟨0, "ab", "http://x", some 3⟩ : UrlDoc) :: []).foldl
        (sweepStep (fun _ => true))
        ([⟨0, "ab", "http://x", some 3⟩], [⟨"ab", true, 0⟩])).1 ∧
    (sweepStep (fun _ => true)
        (([] : List UrlDoc).foldl (sweepStep (fun _ => true))
          ([⟨0, "ab", "http://x", some 3⟩], [⟨"ab", true, 0⟩]))
        ⟨0, "ab", "http://x", some 3⟩).1
      = deleteOneById
          (([] : List UrlDoc).foldl (sweepStep (fun _ => true))
            ([⟨0, "ab", "http://x", some 3⟩], [⟨"ab", true, 0⟩])).1 0 ∧
    (∀ e ∈ deleteOneById
          (([] : List UrlDoc).foldl (sweepStep (fun _ => true))
            ([⟨0, "ab", "http://x", some 3⟩], [⟨"ab", true, 0⟩])).1 0,
        e.short_code ≠ "ab") :=
  sweep_deletes_mapping_before_recycling_slot 5
    [⟨0, "ab", "http://x", some 3⟩] [⟨"ab", true, 0⟩] [] (fun _ => true)
    [] ⟨0, "ab", "http://x", some 3⟩ []
    (by decide) (by decide) (by decide)

end UrlShortener
